import Mathlib

/-!
Shallow embedding of the Minesweeper board logic of
`src/features/game/components/GameBoard.tsx`, together with proofs of the
behavioural properties of its board generator, reveal engine and flag manager.

Conventions of the embedding:
* a board position is a `(row, col)` pair of naturals;
* the React `CellProps` record becomes `Cell` (the two click handlers carry no
  board logic and are dropped);
* the `CellProps[][]` array becomes a total function `Pos → Cell`; positions
  outside the grid are phantom cells that the theorems never rely on;
* the grid-size and mine-count constants (`GRID_SIZE`, `NUM_MINES`) become
  parameters, with the source's default values kept as named constants;
* JavaScript numbers used as counters (`flagCount`, `revealedCount`) become
  `Int`;
* `Math.random()`-driven mine placement takes the stream of random draws as an
  explicit list of positions (each draw is `(⌊rand*rows⌋, ⌊rand*cols⌋)`, hence
  in bounds); exhausting the list before placement finishes returns `none`,
  which models a run of the unbounded rejection-sampling loop that has not
  terminated yet;
* the unbounded recursion of `recursiveSurroundCells` takes a fuel parameter
  bounding the call depth; `10 * (rows*cols + 1)` fuel is proved sufficient
  for boards whose stored neighbour lists are the generated ones.
-/

namespace Minesweeper

/-- A board coordinate: `(row, col)`. -/
abbrev Pos := Nat × Nat

/-- Embeds the board-logic part of `CellProps`: `isMine`, `isRevealed`,
`isFlagged`, `adjacentMines` and the stored `surroundingCells` list. -/
structure Cell where
  isMine : Bool
  isRevealed : Bool
  isFlagged : Bool
  adjacentMines : Nat
  surroundingCells : List Pos
  deriving DecidableEq, Repr

/-- Embeds the `GRID_SIZE` constant's shape: a row count and a column count. -/
structure GridSize where
  row : Nat
  col : Nat
  deriving DecidableEq, Repr

/-- The source's `GRID_SIZE` default: an 8×8 grid. -/
def GRID_SIZE : GridSize := ⟨8, 8⟩

/-- The source's `NUM_MINES` default. -/
def NUM_MINES : Nat := 10

/-- The finite set of in-bounds positions of a grid. -/
def gridPositions (g : GridSize) : Finset Pos :=
  Finset.range g.row ×ˢ Finset.range g.col

/-- The loop offsets `-1, 0, 1` used by both nested `for` loops of the source
(`surroundingCells` and `adjacentMines`). -/
def offsets : List Int := [-1, 0, 1]

/-- The raw `(row + i, col + j)` candidates generated by the nested loops, in
loop order. -/
def offsetsAround (row col : Nat) : List (Int × Int) :=
  offsets.flatMap fun i => offsets.map fun j => ((row : Int) + i, (col : Int) + j)

/-- The bounds test `newRow >= 0 && newRow < GRID_SIZE.row && newCol >= 0 &&
newCol < GRID_SIZE.col` of the source. -/
def inBoundsB (g : GridSize) (q : Int × Int) : Bool :=
  decide (0 ≤ q.1) && decide (q.1 < (g.row : Int)) &&
    decide (0 ≤ q.2) && decide (q.2 < (g.col : Int))

/-- Conversion of an in-bounds signed candidate back to a `Pos`. -/
def toPos (q : Int × Int) : Pos := (q.1.toNat, q.2.toNat)

/-- Embeds `surroundingCells(row, col)`: every `(row + i, col + j)` for
`i, j ∈ {-1, 0, 1}` that lies within the grid, in loop order.  The source does
not skip `i = 0 && j = 0`, so the list contains the cell's own position. -/
def surroundingCells (g : GridSize) (row col : Nat) : List Pos :=
  ((offsetsAround row col).filter fun q => inBoundsB g q).map toPos

/-- Embeds `adjacentMines(row, col, board)`: counts the in-bounds positions of
the same nested loops whose cell `isMine`. -/
def adjacentMines (g : GridSize) (row col : Nat) (board : Pos → Cell) : Nat :=
  ((offsetsAround row col).filter fun q =>
    inBoundsB g q && (board (toPos q)).isMine).length

/-- Embeds `initializeCell()`: all-false flags, zero adjacency, empty
neighbour list. -/
def initializeCell : Cell :=
  { isMine := false, isRevealed := false, isFlagged := false,
    adjacentMines := 0, surroundingCells := [] }

/-- Pointwise update of the board function, modelling assignment to
`board[p.row][p.col]`. -/
def setCell (board : Pos → Cell) (p : Pos) (c : Cell) : Pos → Cell :=
  fun q => if q = p then c else board q

/-- Marking one cell as a mine (`board[randomRow][randomCol].isMine = true`). -/
def setMine (board : Pos → Cell) (p : Pos) : Pos → Cell :=
  setCell board p { board p with isMine := true }

/-- The cell with its `isRevealed` field set, as produced by
`{...cell, isRevealed: true}` and by `cell.isRevealed = true` in the source. -/
def revealCell (c : Cell) : Cell :=
  { c with isRevealed := true }

/-- The cell with its `isFlagged` field replaced, as produced by
`{...cell, isFlagged: v}` and by `cell.isFlagged = v` in the source. -/
def setFlagged (c : Cell) (v : Bool) : Cell :=
  { c with isFlagged := v }

/-- The cell with its `adjacentMines` field replaced, as produced by
`cell.adjacentMines = n` in the source. -/
def setAdjacent (c : Cell) (n : Nat) : Cell :=
  { c with adjacentMines := n }

/-- The cell with its `surroundingCells` field replaced, as produced by
`cell.surroundingCells = l` in the source. -/
def setSurrounding (c : Cell) (l : List Pos) : Cell :=
  { c with surroundingCells := l }

/-- Embeds the `while (minesPlaced < numMines)` rejection-sampling loop of
`setMines`.  The first argument is the stream of random draws still to come,
the second is `numMines - minesPlaced`.  A draw that already is a mine is
rejected; otherwise the cell is mined and the needed count drops.  Running out
of draws before the needed count reaches zero yields `none` (the loop is still
running). -/
def setMinesAux : List Pos → Nat → (Pos → Cell) → Option (Pos → Cell)
  | _, 0, board => some board
  | [], _ + 1, _ => none
  | p :: ps, need + 1, board =>
      if (board p).isMine then setMinesAux ps (need + 1) board
      else setMinesAux ps need (setMine board p)

/-- Embeds `setMines(numMines, board)` with the random draws explicit. -/
def setMines (numMines : Nat) (picks : List Pos) (board : Pos → Cell) :
    Option (Pos → Cell) :=
  setMinesAux picks numMines board

/-- Embeds `initializeBoard()`: allocate all cells with `initializeCell`,
place the mines, then for every in-bounds cell set `adjacentMines` (non-mine
cells only, reading mines from the placed board) and store its
`surroundingCells` list. -/
def initializeBoard (g : GridSize) (numMines : Nat) (picks : List Pos) :
    Option (Pos → Cell) :=
  match setMines numMines picks (fun _ => initializeCell) with
  | none => none
  | some b =>
      some fun p =>
        if p ∈ gridPositions g then
          let c := b p
          let c1 := if c.isMine = false then
            setAdjacent c (adjacentMines g p.1 p.2 b) else c
          setSurrounding c1 (surroundingCells g p.1 p.2)
        else b p

/-- Embeds the `GameBoard` component state: the board plus the `useState`
pieces `flagCount`, `revealedCount`, `isGameStart`, `isGameOver`
(the lost flag) and `isGameWon`. -/
structure GameState where
  board : Pos → Cell
  flagCount : Int
  revealedCount : Int
  isGameStart : Bool
  isGameOver : Bool
  isGameWon : Bool

/-- The board after the loss branch's
`newBoard.map((row) => row.map((cell) => (cell.isRevealed = true)))`:
every in-bounds cell force-revealed. -/
def forceRevealBoard (g : GridSize) (b : Pos → Cell) : Pos → Cell :=
  fun p => if p ∈ gridPositions g then revealCell (b p) else b p

/-- The board after the win branch's map, which flags every in-bounds cell
that is neither revealed nor flagged. -/
def forceFlagBoard (g : GridSize) (b : Pos → Cell) : Pos → Cell :=
  fun p => if p ∈ gridPositions g ∧ (b p).isRevealed = false ∧
      (b p).isFlagged = false then
    setFlagged (b p) true else b p

/-- Embeds `recursiveSurroundCells(surrounding)`.  The state is the board
paired with `revealedCount`.  For each worklist position that is not flagged,
not a mine and not yet revealed, the cell is revealed, the count incremented,
and if its `adjacentMines` is zero the recursion descends into its stored
`surroundingCells` before the remaining worklist is processed on the updated
state.  `fuel` bounds the call depth of the otherwise unbounded source
recursion; `recursiveSurroundCells_fuel`-style hypotheses in the lemmas below
show the budget used by `revealedCell` never runs out on generated boards. -/
def recursiveSurroundCells :
    Nat → (Pos → Cell) × Int → List Pos → (Pos → Cell) × Int
  | 0, st, _ => st
  | _ + 1, st, [] => st
  | fuel + 1, st, p :: rest =>
      let c := st.1 p
      if c.isFlagged = false ∧ c.isMine = false ∧ c.isRevealed = false then
        let st1 : (Pos → Cell) × Int :=
          (setCell st.1 p (revealCell c), st.2 + 1)
        if c.adjacentMines = 0 then
          recursiveSurroundCells fuel
            (recursiveSurroundCells fuel st1 c.surroundingCells) rest
        else
          recursiveSurroundCells fuel st1 rest
      else
        recursiveSurroundCells fuel st rest

/-- The fuel budget `revealedCell` hands to the flood fill; proved sufficient
for well-formed boards (`recursiveSurroundCells` reveals a fresh cell before
every descent, so the depth is bounded by the number of unrevealed cells). -/
def floodFuel (g : GridSize) : Nat := 10 * (g.row * g.col + 1)

/-- Embeds `revealedCell(row, col)`.  Already revealed or flagged cells are
no-ops.  Otherwise the cell is revealed and `revealedCount` incremented; a
mine force-reveals the whole board and sets the lost flag; else if the stored
`revealedCount` (read before the increment) equals
`rows*cols - numMines - 1` the won flag is set and every remaining unrevealed
unflagged cell force-flagged (incrementing `flagCount` per cell); else a
zero-adjacency cell floods its stored neighbours. -/
def revealedCell (g : GridSize) (numMines : Nat) (s : GameState)
    (row col : Nat) : GameState :=
  let c := s.board (row, col)
  if c.isRevealed = true ∨ c.isFlagged = true then s
  else
    let board1 := setCell s.board (row, col) (revealCell c)
    let rc1 := s.revealedCount + 1
    if c.isMine = true then
      { board := forceRevealBoard g board1,
        flagCount := s.flagCount, revealedCount := rc1,
        isGameStart := true, isGameOver := true, isGameWon := s.isGameWon }
    else if s.revealedCount =
        ((g.row : Int)) * ((g.col : Int)) - (numMines : Int) - 1 then
      { board := forceFlagBoard g board1,
        flagCount := s.flagCount + (((gridPositions g).filter fun p =>
          (board1 p).isRevealed = false ∧ (board1 p).isFlagged = false).card : Int),
        revealedCount := rc1,
        isGameStart := true, isGameOver := s.isGameOver, isGameWon := true }
    else if c.adjacentMines = 0 then
      let st2 := recursiveSurroundCells (floodFuel g) (board1, rc1)
        c.surroundingCells
      { board := st2.1, flagCount := s.flagCount, revealedCount := st2.2,
        isGameStart := true, isGameOver := s.isGameOver,
        isGameWon := s.isGameWon }
    else
      { board := board1, flagCount := s.flagCount, revealedCount := rc1,
        isGameStart := true, isGameOver := s.isGameOver,
        isGameWon := s.isGameWon }

/-- Embeds `flagToggleSet(row, col)`: on an unrevealed cell the flag is
flipped and `flagCount` adjusted by ±1; afterwards, if the stored
`revealedCount` equals `rows*cols - numMines`, the won flag is set.  Revealed
cells are no-ops. -/
def flagToggleSet (g : GridSize) (numMines : Nat) (s : GameState)
    (row col : Nat) : GameState :=
  if (s.board (row, col)).isRevealed = false then
    let c := s.board (row, col)
    let fb : Int × (Pos → Cell) :=
      if c.isFlagged = true then
        (s.flagCount - 1, setCell s.board (row, col) (setFlagged c false))
      else
        (s.flagCount + 1, setCell s.board (row, col) (setFlagged c true))
    let won1 := if s.revealedCount =
        ((g.row : Int)) * ((g.col : Int)) - (numMines : Int) then true
      else s.isGameWon
    { board := fb.2, flagCount := fb.1, revealedCount := s.revealedCount,
      isGameStart := true, isGameOver := s.isGameOver, isGameWon := won1 }
  else s

/-- Embeds `handleFaceClick()`: reset every counter and flag and regenerate
the board. -/
def handleFaceClick (g : GridSize) (numMines : Nat) (picks : List Pos) :
    Option GameState :=
  match initializeBoard g numMines picks with
  | none => none
  | some b =>
      some { board := b, flagCount := 0, revealedCount := 0,
             isGameStart := false, isGameOver := false, isGameWon := false }

/-- Number of mine cells on the grid. -/
def mineCount (g : GridSize) (board : Pos → Cell) : Nat :=
  ((gridPositions g).filter fun p => (board p).isMine = true).card

/-- Number of flagged cells on the grid. -/
def flaggedCount (g : GridSize) (board : Pos → Cell) : Nat :=
  ((gridPositions g).filter fun p => (board p).isFlagged = true).card

/-- Number of revealed cells on the grid. -/
def revealedCountOf (g : GridSize) (board : Pos → Cell) : Nat :=
  ((gridPositions g).filter fun p => (board p).isRevealed = true).card

/-- Number of unrevealed cells on the grid. -/
def unrevealedCount (g : GridSize) (board : Pos → Cell) : Nat :=
  ((gridPositions g).filter fun p => (board p).isRevealed = false).card

/-- A board is well formed when each in-bounds cell stores the neighbour list
`initializeBoard` computes for it.  Every generated board is well formed. -/
def wellFormed (g : GridSize) (board : Pos → Cell) : Prop :=
  ∀ p ∈ gridPositions g,
    (board p).surroundingCells = surroundingCells g p.1 p.2

instance (g : GridSize) (board : Pos → Cell) : Decidable (wellFormed g board) := by
  unfold wellFormed; infer_instance

/-- How the flood fill may change one cell: either it is left alone, or — if
it was unflagged, not a mine and unrevealed — it is revealed and nothing else
about it changes. -/
def RevealStep (x y : Cell) : Prop :=
  y = x ∨ (x.isFlagged = false ∧ x.isMine = false ∧ x.isRevealed = false ∧
    y = revealCell x)

/-- Reachability along the flood fill of the reveal engine: starting from a
clicked position, a step may leave any already-reached position that is
unflagged, not a mine, unrevealed (all relative to the board state before the
click) and has zero `adjacentMines`, moving to any of its surrounding
positions. -/
inductive FloodReach (g : GridSize) (board : Pos → Cell) (c0 : Pos) :
    Pos → Prop
  | refl : FloodReach g board c0 c0
  | step (q r : Pos) (h : FloodReach g board c0 q)
      (hf : (board q).isFlagged = false) (hm : (board q).isMine = false)
      (hr : (board q).isRevealed = false) (hz : (board q).adjacentMines = 0)
      (hnb : r ∈ surroundingCells g q.1 q.2) : FloodReach g board c0 r

/-- The zero-adjacency reachability the claim about the flood fill describes:
connectivity through zero-adjacency non-mine cells via the 8-neighbour
relation, explicitly not blocked by flags.  Stated from the claim's words, to
be compared against the behaviour of `recursiveSurroundCells`. -/
inductive ClaimZeroReach (g : GridSize) (board : Pos → Cell) (c0 : Pos) :
    Pos → Prop
  | refl : ClaimZeroReach g board c0 c0
  | step (q r : Pos) (h : ClaimZeroReach g board c0 q)
      (hm : (board q).isMine = false) (hz : (board q).adjacentMines = 0)
      (hnb : r ∈ surroundingCells g q.1 q.2) : ClaimZeroReach g board c0 r

/-- A fresh game session over a given board: the initial `useState` values of
the `GameBoard` component. -/
def freshState (b : Pos → Cell) : GameState :=
  { board := b, flagCount := 0, revealedCount := 0,
    isGameStart := false, isGameOver := false, isGameWon := false }

/-- A 1×1 grid. -/
def grid11 : GridSize := ⟨1, 1⟩

/-- A 1×2 grid. -/
def grid12 : GridSize := ⟨1, 2⟩

/-- A 1×3 grid. -/
def grid13 : GridSize := ⟨1, 3⟩

/-- A 2×2 grid. -/
def grid22 : GridSize := ⟨2, 2⟩

/-- A generated 1×1 board with no mines. -/
def boardNoMine11 : Pos → Cell :=
  (initializeBoard grid11 0 []).getD fun _ => initializeCell

/-- A generated 1×1 board whose single cell is a mine. -/
def boardMine11 : Pos → Cell :=
  (initializeBoard grid11 1 [(0, 0)]).getD fun _ => initializeCell

/-- The 1×1 session after revealing the mine: a lost terminal state. -/
def lostState11 : GameState :=
  revealedCell grid11 1 (freshState boardMine11) 0 0

/-- A generated 1×2 board whose single mine is at `(0, 1)`. -/
def boardMine12 : Pos → Cell :=
  (initializeBoard grid12 1 [(0, 1)]).getD fun _ => initializeCell

/-- The 1×2 session after revealing the only safe cell: a won terminal state
whose remaining cell was force-flagged. -/
def wonState12 : GameState :=
  revealedCell grid12 1 (freshState boardMine12) 0 0

/-- A generated 1×3 board with no mines. -/
def boardNoMine13 : Pos → Cell :=
  (initializeBoard grid13 0 []).getD fun _ => initializeCell

/-- The no-mine 1×3 session with its middle cell flagged. -/
def flagBlockedState : GameState :=
  flagToggleSet grid13 0 (freshState boardNoMine13) 0 1

/-- A generated 1×3 board whose single mine is at `(0, 2)`. -/
def boardMine13 : Pos → Cell :=
  (initializeBoard grid13 1 [(0, 2)]).getD fun _ => initializeCell

/-- A generated 2×2 board whose single mine is at `(0, 0)`. -/
def boardOne22 : Pos → Cell :=
  (initializeBoard grid22 1 [(0, 0)]).getD fun _ => initializeCell

/-! ### Basic facts about the grid and the neighbour computation -/

theorem mem_gridPositions {g : GridSize} {p : Pos} :
    p ∈ gridPositions g ↔ p.1 < g.row ∧ p.2 < g.col := by
  cases p with
  | mk a b => simp [gridPositions]

theorem gridPositions_card (g : GridSize) :
    (gridPositions g).card = g.row * g.col := by
  simp [gridPositions]

theorem surroundingCells_subset_grid {g : GridSize} {r c : Nat} {p : Pos}
    (h : p ∈ surroundingCells g r c) : p ∈ gridPositions g := by
  unfold surroundingCells at h
  rw [List.mem_map] at h
  obtain ⟨q, hq, rfl⟩ := h
  rw [List.mem_filter] at hq
  have hb := hq.2
  unfold inBoundsB at hb
  simp only [Bool.and_eq_true, decide_eq_true_eq] at hb
  rw [mem_gridPositions]
  unfold toPos
  omega

theorem offsetsAround_length (r c : Nat) : (offsetsAround r c).length = 9 := by
  rfl

theorem surroundingCells_length_le (g : GridSize) (r c : Nat) :
    (surroundingCells g r c).length ≤ 9 := by
  unfold surroundingCells
  rw [List.length_map]
  calc ((offsetsAround r c).filter fun q => inBoundsB g q).length
      ≤ (offsetsAround r c).length := List.length_filter_le _ _
    _ = 9 := offsetsAround_length r c

theorem filter_and_map_countP (l : List (Int × Int)) (A : Int × Int → Bool)
    (B : Pos → Bool) :
    (l.filter fun q => A q && B (toPos q)).length =
      ((l.filter A).map toPos).countP B := by
  induction l with
  | nil => simp
  | cons a t ih =>
      by_cases hA : A a = true
      · by_cases hB : B (toPos a) = true
        · simp [List.filter_cons, List.countP_cons, hA, hB, ih]
        · simp only [Bool.not_eq_true] at hB
          simp [List.filter_cons, List.countP_cons, hA, hB, ih]
      · simp only [Bool.not_eq_true] at hA
        simp [List.filter_cons, hA, ih]

theorem adjacentMines_eq_countP (g : GridSize) (r c : Nat)
    (board : Pos → Cell) :
    adjacentMines g r c board =
      (surroundingCells g r c).countP fun p => (board p).isMine := by
  unfold adjacentMines surroundingCells
  exact filter_and_map_countP (offsetsAround r c) (fun q => inBoundsB g q)
    (fun p => (board p).isMine)

theorem countP_filter_ne (l : List Pos) (P : Pos → Bool) (p : Pos)
    (h : P p = false) :
    l.countP P = (l.filter fun q => decide (q ≠ p)).countP P := by
  induction l with
  | nil => simp
  | cons a t ih =>
      by_cases ha : a = p
      · subst ha
        simp [List.filter_cons, List.countP_cons, h, ih]
      · simp [List.filter_cons, List.countP_cons, ha, ih]

/-! ### Basic facts about cell updates -/

theorem setCell_same (board : Pos → Cell) (p : Pos) (c : Cell) :
    setCell board p c p = c := by
  simp [setCell]

theorem setCell_other (board : Pos → Cell) (p : Pos) (c : Cell) {q : Pos}
    (h : q ≠ p) : setCell board p c q = board q := by
  simp [setCell, h]

theorem setMine_isMine (board : Pos → Cell) (p q : Pos) :
    (setMine board p q).isMine = ((board q).isMine || decide (q = p)) := by
  by_cases h : q = p
  · subst h; simp [setMine, setCell_same]
  · simp [setMine, setCell_other _ _ _ h, h]

theorem setMine_stable (board : Pos → Cell) (p q : Pos) :
    (setMine board p q).isRevealed = (board q).isRevealed ∧
    (setMine board p q).isFlagged = (board q).isFlagged ∧
    (setMine board p q).adjacentMines = (board q).adjacentMines ∧
    (setMine board p q).surroundingCells = (board q).surroundingCells := by
  by_cases h : q = p
  · subst h; simp [setMine, setCell_same]
  · simp [setMine, setCell_other _ _ _ h]

@[simp] theorem setAdjacent_isMine (c : Cell) (n : Nat) :
    (setAdjacent c n).isMine = c.isMine := rfl

@[simp] theorem setAdjacent_isRevealed (c : Cell) (n : Nat) :
    (setAdjacent c n).isRevealed = c.isRevealed := rfl

@[simp] theorem setAdjacent_isFlagged (c : Cell) (n : Nat) :
    (setAdjacent c n).isFlagged = c.isFlagged := rfl

@[simp] theorem setAdjacent_adjacentMines (c : Cell) (n : Nat) :
    (setAdjacent c n).adjacentMines = n := rfl

@[simp] theorem setSurrounding_isMine (c : Cell) (l : List Pos) :
    (setSurrounding c l).isMine = c.isMine := rfl

@[simp] theorem setSurrounding_isRevealed (c : Cell) (l : List Pos) :
    (setSurrounding c l).isRevealed = c.isRevealed := rfl

@[simp] theorem setSurrounding_isFlagged (c : Cell) (l : List Pos) :
    (setSurrounding c l).isFlagged = c.isFlagged := rfl

@[simp] theorem setSurrounding_adjacentMines (c : Cell) (l : List Pos) :
    (setSurrounding c l).adjacentMines = c.adjacentMines := rfl

@[simp] theorem setSurrounding_surroundingCells (c : Cell) (l : List Pos) :
    (setSurrounding c l).surroundingCells = l := rfl

/-! ### The flood fill changes cells only by revealing eligible ones -/

@[simp] theorem revealCell_isRevealed (c : Cell) :
    (revealCell c).isRevealed = true := rfl

@[simp] theorem revealCell_isFlagged (c : Cell) :
    (revealCell c).isFlagged = c.isFlagged := rfl

@[simp] theorem revealCell_isMine (c : Cell) :
    (revealCell c).isMine = c.isMine := rfl

@[simp] theorem revealCell_adjacentMines (c : Cell) :
    (revealCell c).adjacentMines = c.adjacentMines := rfl

@[simp] theorem revealCell_surroundingCells (c : Cell) :
    (revealCell c).surroundingCells = c.surroundingCells := rfl

@[simp] theorem setFlagged_isFlagged (c : Cell) (v : Bool) :
    (setFlagged c v).isFlagged = v := rfl

@[simp] theorem setFlagged_isRevealed (c : Cell) (v : Bool) :
    (setFlagged c v).isRevealed = c.isRevealed := rfl

@[simp] theorem setFlagged_isMine (c : Cell) (v : Bool) :
    (setFlagged c v).isMine = c.isMine := rfl

@[simp] theorem setFlagged_adjacentMines (c : Cell) (v : Bool) :
    (setFlagged c v).adjacentMines = c.adjacentMines := rfl

@[simp] theorem setFlagged_surroundingCells (c : Cell) (v : Bool) :
    (setFlagged c v).surroundingCells = c.surroundingCells := rfl

theorem RevealStep.refl (x : Cell) : RevealStep x x := Or.inl rfl

theorem RevealStep.trans {x y z : Cell} (h1 : RevealStep x y)
    (h2 : RevealStep y z) : RevealStep x z := by
  rcases h1 with h1 | ⟨hf, hm, hr, h1⟩
  · rwa [h1] at h2
  · rcases h2 with h2 | ⟨-, -, hr2, -⟩
    · rw [h2, h1]; exact Or.inr ⟨hf, hm, hr, rfl⟩
    · rw [h1] at hr2; simp at hr2

theorem RevealStep.stable {x y : Cell} (h : RevealStep x y) :
    y.isFlagged = x.isFlagged ∧ y.isMine = x.isMine ∧
    y.adjacentMines = x.adjacentMines ∧
    y.surroundingCells = x.surroundingCells := by
  rcases h with h | ⟨-, -, -, h⟩ <;> rw [h] <;> exact ⟨rfl, rfl, rfl, rfl⟩

theorem RevealStep.mono {x y : Cell} (h : RevealStep x y)
    (hx : x.isRevealed = true) : y.isRevealed = true := by
  rcases h with h | ⟨-, -, hr, h⟩
  · rwa [h]
  · rw [hr] at hx; simp at hx

theorem RevealStep.of_mine {x y : Cell} (h : RevealStep x y)
    (hx : x.isMine = true) : y = x := by
  rcases h with h | ⟨-, hm, -, -⟩
  · exact h
  · rw [hm] at hx; simp at hx

theorem RevealStep.of_flagged {x y : Cell} (h : RevealStep x y)
    (hx : x.isFlagged = true) : y = x := by
  rcases h with h | ⟨hf, -, -, -⟩
  · exact h
  · rw [hf] at hx; simp at hx

theorem RevealStep.rev_of_unrev {x y : Cell} (h : RevealStep x y)
    (hy : y.isRevealed = false) : x.isRevealed = false := by
  rcases h with h | ⟨-, -, hr, -⟩
  · rwa [h] at hy
  · exact hr

theorem recSurround_cell : ∀ (fuel : Nat) (st : (Pos → Cell) × Int)
    (ws : List Pos) (q : Pos),
    RevealStep (st.1 q) ((recursiveSurroundCells fuel st ws).1 q) := by
  intro fuel
  induction fuel with
  | zero => intro st ws q; exact RevealStep.refl _
  | succ fuel ih =>
      intro st ws q
      cases ws with
      | nil => exact RevealStep.refl _
      | cons p rest =>
          simp only [recursiveSurroundCells]
          split_ifs with h1 h2
          · have s1 : RevealStep (st.1 q)
                ((setCell st.1 p (revealCell (st.1 p))) q) := by
              by_cases hq : q = p
              · subst hq
                rw [setCell_same]
                exact Or.inr ⟨h1.1, h1.2.1, h1.2.2, rfl⟩
              · rw [setCell_other _ _ _ hq]
                exact RevealStep.refl _
            exact (s1.trans (ih _ _ q)).trans (ih _ _ q)
          · have s1 : RevealStep (st.1 q)
                ((setCell st.1 p (revealCell (st.1 p))) q) := by
              by_cases hq : q = p
              · subst hq
                rw [setCell_same]
                exact Or.inr ⟨h1.1, h1.2.1, h1.2.2, rfl⟩
              · rw [setCell_other _ _ _ hq]
                exact RevealStep.refl _
            exact s1.trans (ih _ _ q)
          · exact ih _ _ q

theorem recSurround_stable (fuel : Nat) (st : (Pos → Cell) × Int)
    (ws : List Pos) (q : Pos) :
    ((recursiveSurroundCells fuel st ws).1 q).isFlagged = (st.1 q).isFlagged ∧
    ((recursiveSurroundCells fuel st ws).1 q).isMine = (st.1 q).isMine ∧
    ((recursiveSurroundCells fuel st ws).1 q).adjacentMines =
      (st.1 q).adjacentMines ∧
    ((recursiveSurroundCells fuel st ws).1 q).surroundingCells =
      (st.1 q).surroundingCells :=
  (recSurround_cell fuel st ws q).stable

theorem recSurround_mono (fuel : Nat) (st : (Pos → Cell) × Int)
    (ws : List Pos) (q : Pos) (h : (st.1 q).isRevealed = true) :
    ((recursiveSurroundCells fuel st ws).1 q).isRevealed = true :=
  (recSurround_cell fuel st ws q).mono h

theorem recSurround_mine_untouched (fuel : Nat) (st : (Pos → Cell) × Int)
    (ws : List Pos) (q : Pos) (h : (st.1 q).isMine = true) :
    (recursiveSurroundCells fuel st ws).1 q = st.1 q :=
  (recSurround_cell fuel st ws q).of_mine h

theorem recSurround_flagged_untouched (fuel : Nat) (st : (Pos → Cell) × Int)
    (ws : List Pos) (q : Pos) (h : (st.1 q).isFlagged = true) :
    (recursiveSurroundCells fuel st ws).1 q = st.1 q :=
  (recSurround_cell fuel st ws q).of_flagged h

theorem recSurround_wellFormed {g : GridSize} (fuel : Nat)
    (st : (Pos → Cell) × Int) (ws : List Pos)
    (h : wellFormed g st.1) :
    wellFormed g (recursiveSurroundCells fuel st ws).1 := by
  intro p hp
  rw [(recSurround_stable fuel st ws p).2.2.2]
  exact h p hp

theorem recSurround_unrev_le (g : GridSize) (fuel : Nat)
    (st : (Pos → Cell) × Int) (ws : List Pos) :
    unrevealedCount g (recursiveSurroundCells fuel st ws).1 ≤
      unrevealedCount g st.1 := by
  unfold unrevealedCount
  apply Finset.card_le_card
  intro q hq
  rw [Finset.mem_filter] at hq ⊢
  exact ⟨hq.1, (recSurround_cell fuel st ws q).rev_of_unrev hq.2⟩

theorem unrevealedCount_setCell (g : GridSize) (board : Pos → Cell) (p : Pos)
    (c' : Cell) (hp : p ∈ gridPositions g)
    (hunrev : (board p).isRevealed = false) (hc : c'.isRevealed = true) :
    unrevealedCount g (setCell board p c') + 1 = unrevealedCount g board := by
  unfold unrevealedCount
  have hset : ((gridPositions g).filter
        fun q => (setCell board p c' q).isRevealed = false) =
      ((gridPositions g).filter fun q => (board q).isRevealed = false).erase p := by
    ext q
    by_cases hq : q = p
    · subst hq
      simp [setCell_same, hc]
    · simp [setCell_other _ _ _ hq, Finset.mem_erase, hq]
  have hmem : p ∈ (gridPositions g).filter fun q => (board q).isRevealed = false :=
    Finset.mem_filter.mpr ⟨hp, hunrev⟩
  have hpos : 0 < ((gridPositions g).filter
      fun q => (board q).isRevealed = false).card :=
    Finset.card_pos.mpr ⟨p, hmem⟩
  rw [hset, Finset.card_erase_of_mem hmem]
  omega

theorem unrevealedCount_le (g : GridSize) (board : Pos → Cell) :
    unrevealedCount g board ≤ g.row * g.col := by
  unfold unrevealedCount
  calc ((gridPositions g).filter fun p => (board p).isRevealed = false).card
      ≤ (gridPositions g).card := Finset.card_filter_le _ _
    _ = g.row * g.col := gridPositions_card g

theorem setCell_reveal_fields (b : Pos → Cell) (p q : Pos) :
    ((setCell b p (revealCell (b p))) q).isFlagged = (b q).isFlagged ∧
    ((setCell b p (revealCell (b p))) q).isMine = (b q).isMine ∧
    ((setCell b p (revealCell (b p))) q).adjacentMines =
      (b q).adjacentMines ∧
    ((setCell b p (revealCell (b p))) q).surroundingCells =
      (b q).surroundingCells := by
  by_cases hq : q = p
  · subst hq; rw [setCell_same]; exact ⟨rfl, rfl, rfl, rfl⟩
  · rw [setCell_other _ _ _ hq]; exact ⟨rfl, rfl, rfl, rfl⟩

theorem setCell_reveal_self (b : Pos → Cell) (p : Pos) :
    ((setCell b p (revealCell (b p))) p).isRevealed = true := by
  rw [setCell_same]; rfl

theorem wellFormed_setCell_reveal {g : GridSize} {b : Pos → Cell} (p : Pos)
    (h : wellFormed g b) :
    wellFormed g (setCell b p (revealCell (b p))) := by
  intro x hx
  rw [(setCell_reveal_fields b p x).2.2.2]
  exact h x hx

/-- Every worklist entry that is neither flagged nor a mine ends up revealed,
provided the fuel dominates ten times the number of unrevealed cells plus the
worklist length. -/
theorem recSurround_complete_ws (g : GridSize) :
    ∀ (fuel : Nat) (st : (Pos → Cell) × Int) (ws : List Pos),
    10 * unrevealedCount g st.1 + ws.length + 1 ≤ fuel →
    (∀ x ∈ ws, x ∈ gridPositions g) →
    ∀ q ∈ ws, (st.1 q).isFlagged = false → (st.1 q).isMine = false →
    ((recursiveSurroundCells fuel st ws).1 q).isRevealed = true := by
  intro fuel
  induction fuel with
  | zero => intro st ws hfuel hws q hq hf hm; omega
  | succ fuel ih =>
      intro st ws hfuel hws q hq hf hm
      cases ws with
      | nil => simp at hq
      | cons p rest =>
          have hp_grid : p ∈ gridPositions g := hws p (List.mem_cons_self p rest)
          simp only [recursiveSurroundCells]
          split_ifs with h1 h2
          · -- eligible head with zero adjacency: reveal then descend
            have hu : unrevealedCount g (setCell st.1 p (revealCell (st.1 p))) +
                1 = unrevealedCount g st.1 :=
              unrevealedCount_setCell g st.1 p _ hp_grid h1.2.2 rfl
            by_cases hqp : q = p
            · subst hqp
              apply recSurround_mono
              apply recSurround_mono
              exact setCell_reveal_self st.1 q
            · have hq' : q ∈ rest := by
                rcases List.mem_cons.mp hq with h | h
                · exact absurd h hqp
                · exact h
              have hle : unrevealedCount g (recursiveSurroundCells fuel
                    (setCell st.1 p (revealCell (st.1 p)), st.2 + 1)
                    ((st.1 p).surroundingCells)).1 ≤
                  unrevealedCount g (setCell st.1 p (revealCell (st.1 p))) :=
                recSurround_unrev_le g fuel _ _
              refine ih _ rest ?_
                (fun x hx => hws x (List.mem_cons_of_mem p hx)) q hq' ?_ ?_
              · simp only [List.length_cons] at hfuel
                omega
              · rw [(recSurround_stable _ _ _ q).1]
                exact ((setCell_reveal_fields st.1 p q).1).trans hf
              · rw [(recSurround_stable _ _ _ q).2.1]
                exact ((setCell_reveal_fields st.1 p q).2.1).trans hm
          · -- eligible head with nonzero adjacency: reveal, continue
            have hu : unrevealedCount g (setCell st.1 p (revealCell (st.1 p))) +
                1 = unrevealedCount g st.1 :=
              unrevealedCount_setCell g st.1 p _ hp_grid h1.2.2 rfl
            by_cases hqp : q = p
            · subst hqp
              apply recSurround_mono
              exact setCell_reveal_self st.1 q
            · have hq' : q ∈ rest := by
                rcases List.mem_cons.mp hq with h | h
                · exact absurd h hqp
                · exact h
              refine ih _ rest ?_
                (fun x hx => hws x (List.mem_cons_of_mem p hx)) q hq' ?_ ?_
              · show 10 * unrevealedCount g
                    (setCell st.1 p (revealCell (st.1 p))) +
                    rest.length + 1 ≤ fuel
                simp only [List.length_cons] at hfuel
                omega
              · exact ((setCell_reveal_fields st.1 p q).1).trans hf
              · exact ((setCell_reveal_fields st.1 p q).2.1).trans hm
          · -- ineligible head: skip
            by_cases hqp : q = p
            · subst hqp
              have hrev : (st.1 q).isRevealed = true := by
                by_cases hr : (st.1 q).isRevealed = true
                · exact hr
                · exact absurd ⟨hf, hm, by simpa using hr⟩ h1
              exact recSurround_mono _ _ _ _ hrev
            · have hq' : q ∈ rest := by
                rcases List.mem_cons.mp hq with h | h
                · exact absurd h hqp
                · exact h
              refine ih st rest ?_
                (fun x hx => hws x (List.mem_cons_of_mem p hx)) q hq' hf hm
              simp only [List.length_cons] at hfuel
              omega

set_option maxHeartbeats 1600000 in
/-- Closure of the flood fill: whenever the flood newly reveals a
zero-adjacency cell, all of that cell's eligible neighbours also end up
revealed. -/
theorem recSurround_closure (g : GridSize) :
    ∀ (fuel : Nat) (st : (Pos → Cell) × Int) (ws : List Pos),
    10 * unrevealedCount g st.1 + ws.length + 1 ≤ fuel →
    wellFormed g st.1 →
    (∀ x ∈ ws, x ∈ gridPositions g) →
    ∀ q, ((recursiveSurroundCells fuel st ws).1 q).isRevealed = true →
      (st.1 q).isRevealed = false → (st.1 q).adjacentMines = 0 →
      ∀ r ∈ surroundingCells g q.1 q.2,
        (st.1 r).isFlagged = false → (st.1 r).isMine = false →
        ((recursiveSurroundCells fuel st ws).1 r).isRevealed = true := by
  intro fuel
  induction fuel with
  | zero => intro st ws hfuel; omega
  | succ fuel ih =>
      intro st ws hfuel hwf hws q hqF hqU hqZ r hr hrF hrM
      cases ws with
      | nil =>
          simp only [recursiveSurroundCells] at hqF
          rw [hqU] at hqF
          exact absurd hqF (by decide)
      | cons p rest =>
          have hp_grid : p ∈ gridPositions g :=
            hws p (List.mem_cons_self p rest)
          have hws_rest : ∀ x ∈ rest, x ∈ gridPositions g :=
            fun x hx => hws x (List.mem_cons_of_mem p hx)
          simp only [recursiveSurroundCells] at hqF ⊢
          split_ifs at hqF ⊢ with h1 h2
          · -- eligible head with zero adjacency: reveal p, descend, continue
            have hu : unrevealedCount g
                  (setCell st.1 p (revealCell (st.1 p))) + 1 =
                unrevealedCount g st.1 :=
              unrevealedCount_setCell g st.1 p _ hp_grid h1.2.2 rfl
            have hnb_eq : (st.1 p).surroundingCells =
                surroundingCells g p.1 p.2 := hwf p hp_grid
            have hws_inner : ∀ x ∈ (st.1 p).surroundingCells,
                x ∈ gridPositions g := by
              rw [hnb_eq]
              intro x hx
              exact surroundingCells_subset_grid hx
            have hlen : (st.1 p).surroundingCells.length ≤ 9 := by
              rw [hnb_eq]
              exact surroundingCells_length_le g p.1 p.2
            have hwf1 : wellFormed g (setCell st.1 p (revealCell (st.1 p))) :=
              wellFormed_setCell_reveal p hwf
            have hfuel_inner : 10 * unrevealedCount g
                  (setCell st.1 p (revealCell (st.1 p))) +
                (st.1 p).surroundingCells.length + 1 ≤ fuel := by
              simp only [List.length_cons] at hfuel
              omega
            have hle_inner : unrevealedCount g (recursiveSurroundCells fuel
                  (setCell st.1 p (revealCell (st.1 p)), st.2 + 1)
                  ((st.1 p).surroundingCells)).1 ≤
                unrevealedCount g (setCell st.1 p (revealCell (st.1 p))) :=
              recSurround_unrev_le g fuel _ _
            have hfuel_outer : 10 * unrevealedCount g (recursiveSurroundCells
                  fuel (setCell st.1 p (revealCell (st.1 p)), st.2 + 1)
                  ((st.1 p).surroundingCells)).1 + rest.length + 1 ≤ fuel := by
              simp only [List.length_cons] at hfuel
              omega
            have hwf2 : wellFormed g (recursiveSurroundCells fuel
                  (setCell st.1 p (revealCell (st.1 p)), st.2 + 1)
                  ((st.1 p).surroundingCells)).1 :=
              recSurround_wellFormed fuel _ _ hwf1
            by_cases hqp : q = p
            · subst hqp
              by_cases hrp : r = q
              · subst hrp
                apply recSurround_mono
                apply recSurround_mono
                exact setCell_reveal_self st.1 r
              · have hrmem : r ∈ (st.1 q).surroundingCells := by
                  rw [hnb_eq]
                  exact hr
                apply recSurround_mono
                exact recSurround_complete_ws g fuel _ _ hfuel_inner hws_inner
                  r hrmem (((setCell_reveal_fields st.1 q r).1).trans hrF)
                  (((setCell_reveal_fields st.1 q r).2.1).trans hrM)
            · have hqU1 : ((setCell st.1 p (revealCell (st.1 p))) q).isRevealed
                  = false := by
                rw [setCell_other _ _ _ hqp]
                exact hqU
              have hqZ1 : ((setCell st.1 p (revealCell (st.1 p)))
                    q).adjacentMines = 0 :=
                ((setCell_reveal_fields st.1 p q).2.2.1).trans hqZ
              by_cases hq2 : ((recursiveSurroundCells fuel
                  (setCell st.1 p (revealCell (st.1 p)), st.2 + 1)
                  ((st.1 p).surroundingCells)).1 q).isRevealed = true
              · -- q was revealed during the descent
                apply recSurround_mono
                exact ih (setCell st.1 p (revealCell (st.1 p)), st.2 + 1)
                  ((st.1 p).surroundingCells) hfuel_inner hwf1 hws_inner
                  q hq2 hqU1 hqZ1 r hr
                  (((setCell_reveal_fields st.1 p r).1).trans hrF)
                  (((setCell_reveal_fields st.1 p r).2.1).trans hrM)
              · -- q was revealed while the tail of the worklist was processed
                have hq2' : ((recursiveSurroundCells fuel
                    (setCell st.1 p (revealCell (st.1 p)), st.2 + 1)
                    ((st.1 p).surroundingCells)).1 q).isRevealed = false := by
                  simpa using hq2
                have hqZ2 : ((recursiveSurroundCells fuel
                      (setCell st.1 p (revealCell (st.1 p)), st.2 + 1)
                      ((st.1 p).surroundingCells)).1 q).adjacentMines = 0 :=
                  ((recSurround_stable fuel _ _ q).2.2.1).trans hqZ1
                exact ih (recursiveSurroundCells fuel
                    (setCell st.1 p (revealCell (st.1 p)), st.2 + 1)
                    ((st.1 p).surroundingCells)) rest hfuel_outer hwf2 hws_rest
                  q hqF hq2' hqZ2 r hr
                  (((recSurround_stable fuel _ _ r).1).trans
                    (((setCell_reveal_fields st.1 p r).1).trans hrF))
                  (((recSurround_stable fuel _ _ r).2.1).trans
                    (((setCell_reveal_fields st.1 p r).2.1).trans hrM))
          · -- eligible head with nonzero adjacency
            have hu : unrevealedCount g
                  (setCell st.1 p (revealCell (st.1 p))) + 1 =
                unrevealedCount g st.1 :=
              unrevealedCount_setCell g st.1 p _ hp_grid h1.2.2 rfl
            have hwf1 : wellFormed g (setCell st.1 p (revealCell (st.1 p))) :=
              wellFormed_setCell_reveal p hwf
            by_cases hqp : q = p
            · subst hqp
              exact absurd hqZ h2
            · have hqU1 : ((setCell st.1 p (revealCell (st.1 p))) q).isRevealed
                  = false := by
                rw [setCell_other _ _ _ hqp]
                exact hqU
              have hqZ1 : ((setCell st.1 p (revealCell (st.1 p)))
                    q).adjacentMines = 0 :=
                ((setCell_reveal_fields st.1 p q).2.2.1).trans hqZ
              have hfuel1 : 10 * unrevealedCount g
                    (setCell st.1 p (revealCell (st.1 p))) +
                  rest.length + 1 ≤ fuel := by
                simp only [List.length_cons] at hfuel
                omega
              by_cases hrp : r = p
              · subst hrp
                apply recSurround_mono
                exact setCell_reveal_self st.1 r
              · exact ih (setCell st.1 p (revealCell (st.1 p)), st.2 + 1) rest
                  hfuel1 hwf1 hws_rest q hqF hqU1 hqZ1 r hr
                  (((setCell_reveal_fields st.1 p r).1).trans hrF)
                  (((setCell_reveal_fields st.1 p r).2.1).trans hrM)
          · -- ineligible head: state unchanged
            have hfuel1 : 10 * unrevealedCount g st.1 + rest.length + 1 ≤
                fuel := by
              simp only [List.length_cons] at hfuel
              omega
            exact ih st rest hfuel1 hwf hws_rest q hqF hqU hqZ r hr hrF hrM

/-! ### Mine placement -/

theorem mineCount_le (g : GridSize) (b : Pos → Cell) :
    mineCount g b ≤ g.row * g.col := by
  unfold mineCount
  calc ((gridPositions g).filter fun p => (b p).isMine = true).card
      ≤ (gridPositions g).card := Finset.card_filter_le _ _
    _ = g.row * g.col := gridPositions_card g

theorem mineCount_setMine (g : GridSize) (b : Pos → Cell) (p : Pos)
    (hp : p ∈ gridPositions g) (hnm : (b p).isMine = false) :
    mineCount g (setMine b p) = mineCount g b + 1 := by
  unfold mineCount
  have hins : ((gridPositions g).filter fun q => (setMine b p q).isMine = true)
      = insert p ((gridPositions g).filter fun q => (b q).isMine = true) := by
    ext q
    rw [Finset.mem_insert, Finset.mem_filter, Finset.mem_filter,
      setMine_isMine]
    by_cases hq : q = p
    · subst hq; simp [hp]
    · simp [hq]
  rw [hins, Finset.card_insert_of_not_mem]
  rw [Finset.mem_filter]
  intro hmem
  rw [hnm] at hmem
  exact absurd hmem.2 (by decide)

theorem setMinesAux_mineCount (g : GridSize) :
    ∀ (picks : List Pos) (need : Nat) (b b' : Pos → Cell),
    (∀ p ∈ picks, p ∈ gridPositions g) →
    setMinesAux picks need b = some b' →
    mineCount g b' = mineCount g b + need := by
  intro picks
  induction picks with
  | nil =>
      intro need b b' hin h
      cases need with
      | zero =>
          simp only [setMinesAux, Option.some.injEq] at h
          rw [← h]
          rfl
      | succ n => simp [setMinesAux] at h
  | cons p ps ih =>
      intro need b b' hin h
      cases need with
      | zero =>
          simp only [setMinesAux, Option.some.injEq] at h
          rw [← h]
          rfl
      | succ n =>
          rw [setMinesAux] at h
          by_cases hm : (b p).isMine = true
          · rw [if_pos hm] at h
            exact ih (n + 1) b b'
              (fun x hx => hin x (List.mem_cons_of_mem p hx)) h
          · rw [if_neg hm] at h
            have hc := ih n (setMine b p) b'
              (fun x hx => hin x (List.mem_cons_of_mem p hx)) h
            rw [mineCount_setMine g b p (hin p (List.mem_cons_self p ps))
              (by simpa using hm)] at hc
            omega

theorem setMinesAux_stable :
    ∀ (picks : List Pos) (need : Nat) (b b' : Pos → Cell),
    setMinesAux picks need b = some b' →
    ∀ q, (b' q).isRevealed = (b q).isRevealed ∧
      (b' q).isFlagged = (b q).isFlagged ∧
      (b' q).adjacentMines = (b q).adjacentMines ∧
      (b' q).surroundingCells = (b q).surroundingCells := by
  intro picks
  induction picks with
  | nil =>
      intro need b b' h q
      cases need with
      | zero =>
          simp only [setMinesAux, Option.some.injEq] at h
          rw [← h]
          exact ⟨rfl, rfl, rfl, rfl⟩
      | succ n => simp [setMinesAux] at h
  | cons p ps ih =>
      intro need b b' h q
      cases need with
      | zero =>
          simp only [setMinesAux, Option.some.injEq] at h
          rw [← h]
          exact ⟨rfl, rfl, rfl, rfl⟩
      | succ n =>
          rw [setMinesAux] at h
          by_cases hm : (b p).isMine = true
          · rw [if_pos hm] at h
            exact ih (n + 1) b b' h q
          · rw [if_neg hm] at h
            have hc := ih n (setMine b p) b' h q
            have hs := setMine_stable b p q
            exact ⟨hc.1.trans hs.1, hc.2.1.trans hs.2.1,
              hc.2.2.1.trans hs.2.2.1, hc.2.2.2.trans hs.2.2.2⟩

theorem setMinesAux_some (g : GridSize) :
    ∀ (picks : List Pos) (need : Nat) (b : Pos → Cell),
    (∀ p ∈ picks, p ∈ gridPositions g) →
    need ≤ ((gridPositions g).filter fun p => (b p).isMine = false).card →
    (∀ p ∈ gridPositions g, (b p).isMine = false → p ∈ picks) →
    ∃ b', setMinesAux picks need b = some b' := by
  intro picks
  induction picks with
  | nil =>
      intro need b hin hcard hcov
      cases need with
      | zero => exact ⟨b, rfl⟩
      | succ n =>
          exfalso
          have hempty : ((gridPositions g).filter
              fun p => (b p).isMine = false) = ∅ := by
            rw [Finset.eq_empty_iff_forall_not_mem]
            intro x hx
            rw [Finset.mem_filter] at hx
            exact absurd (hcov x hx.1 hx.2) (List.not_mem_nil x)
          rw [hempty] at hcard
          simp at hcard
  | cons p ps ih =>
      intro need b hin hcard hcov
      cases need with
      | zero => exact ⟨b, rfl⟩
      | succ n =>
          rw [setMinesAux]
          by_cases hm : (b p).isMine = true
          · rw [if_pos hm]
            refine ih (n + 1) b
              (fun x hx => hin x (List.mem_cons_of_mem p hx)) hcard ?_
            intro x hx hxm
            rcases List.mem_cons.mp (hcov x hx hxm) with hxp | hxp
            · subst hxp; rw [hxm] at hm; exact absurd hm (by decide)
            · exact hxp
          · rw [if_neg hm]
            have hmf : (b p).isMine = false := by simpa using hm
            have hp_grid : p ∈ gridPositions g :=
              hin p (List.mem_cons_self p ps)
            have herase : ((gridPositions g).filter
                  fun q => (setMine b p q).isMine = false) =
                ((gridPositions g).filter
                  fun q => (b q).isMine = false).erase p := by
              ext q
              rw [Finset.mem_erase, Finset.mem_filter, Finset.mem_filter,
                setMine_isMine]
              by_cases hq : q = p
              · subst hq; simp
              · simp [hq, and_comm]
            have hpmem : p ∈ (gridPositions g).filter
                fun q => (b q).isMine = false :=
              Finset.mem_filter.mpr ⟨hp_grid, hmf⟩
            refine ih n (setMine b p)
              (fun x hx => hin x (List.mem_cons_of_mem p hx)) ?_ ?_
            · rw [herase, Finset.card_erase_of_mem hpmem]
              have := Finset.card_pos.mpr ⟨p, hpmem⟩
              omega
            · intro x hx hxm
              rw [setMine_isMine] at hxm
              simp only [Bool.or_eq_false_iff, decide_eq_false_iff_not] at hxm
              rcases List.mem_cons.mp (hcov x hx hxm.1) with hxp | hxp
              · exact absurd hxp hxm.2
              · exact hxp

/-! ### Board generation -/

theorem initializeBoard_some {g : GridSize} {n : Nat} {picks : List Pos}
    {b : Pos → Cell} (h : initializeBoard g n picks = some b) :
    ∃ bMid, setMines n picks (fun _ => initializeCell) = some bMid ∧
      b = fun p => if p ∈ gridPositions g then
        setSurrounding (if (bMid p).isMine = false then
          setAdjacent (bMid p) (adjacentMines g p.1 p.2 bMid) else bMid p)
          (surroundingCells g p.1 p.2)
        else bMid p := by
  unfold initializeBoard at h
  revert h
  cases hs : setMines n picks (fun _ => initializeCell) with
  | none =>
      intro h
      exact Option.noConfusion h
  | some bMid =>
      intro h
      exact ⟨bMid, rfl, (Option.some.inj h).symm⟩

/-! ### Counting arguments for the win branch -/

/-- On a board in play whose revealed count equals `rows*cols - numMines - 1`,
every safe cell other than the one about to be clicked is already revealed. -/
theorem all_safe_revealed {g : GridSize} {board : Pos → Cell} {numMines : Nat}
    (hmc : mineCount g board = numMines)
    (hnorev : ∀ p ∈ gridPositions g, (board p).isMine = true →
      (board p).isRevealed = false)
    {c0 : Pos} (hc0 : c0 ∈ gridPositions g) (hc0m : (board c0).isMine = false)
    (hc0r : (board c0).isRevealed = false)
    (hcount : ((revealedCountOf g board : Int)) =
      (g.row : Int) * (g.col : Int) - (numMines : Int) - 1) :
    ∀ q ∈ gridPositions g, (board q).isMine = false → q ≠ c0 →
      (board q).isRevealed = true := by
  have hsub : (gridPositions g).filter (fun p => (board p).isRevealed = true) ⊆
      (gridPositions g).filter (fun p => (board p).isMine = false) := by
    intro x hx
    rw [Finset.mem_filter] at hx ⊢
    refine ⟨hx.1, ?_⟩
    by_cases hm : (board x).isMine = true
    · rw [hnorev x hx.1 hm] at hx
      exact absurd hx.2 (by decide)
    · simpa using hm
  have h0 : ((gridPositions g).filter fun p => (board p).isMine = true).card +
      ((gridPositions g).filter fun p => ¬((board p).isMine = true)).card =
      (gridPositions g).card :=
    Finset.filter_card_add_filter_neg_card_eq_card
      (fun p => (board p).isMine = true)
  have hcongr : ((gridPositions g).filter fun p => ¬((board p).isMine = true))
      = ((gridPositions g).filter fun p => (board p).isMine = false) := by
    apply Finset.filter_congr
    intro x _
    simp
  rw [hcongr, gridPositions_card] at h0
  have hc0Safe : c0 ∈ (gridPositions g).filter
      (fun p => (board p).isMine = false) :=
    Finset.mem_filter.mpr ⟨hc0, hc0m⟩
  have hpos : 0 < ((gridPositions g).filter
      (fun p => (board p).isMine = false)).card :=
    Finset.card_pos.mpr ⟨c0, hc0Safe⟩
  have hcastT : ((g.row * g.col : Nat) : Int) = (g.row : Int) * (g.col : Int) := by
    push_cast
    ring
  rw [← hcastT] at hcount
  have hmcEq : ((gridPositions g).filter
      fun p => (board p).isMine = true).card = numMines := hmc
  have hRev : ((gridPositions g).filter
        fun p => (board p).isRevealed = true).card = revealedCountOf g board :=
    rfl
  have hcard1 : (((gridPositions g).filter fun p => (board p).isMine = false) \
      ((gridPositions g).filter fun p => (board p).isRevealed = true)).card
      = 1 := by
    rw [Finset.card_sdiff hsub]
    omega
  obtain ⟨a, ha⟩ := Finset.card_eq_one.mp hcard1
  intro q hq hqm hqne
  by_contra hqr
  have hqmem : q ∈ ((gridPositions g).filter
      fun p => (board p).isMine = false) \
      ((gridPositions g).filter fun p => (board p).isRevealed = true) := by
    rw [Finset.mem_sdiff, Finset.mem_filter, Finset.mem_filter]
    exact ⟨⟨hq, hqm⟩, fun hmem => hqr hmem.2⟩
  have hc0mem : c0 ∈ ((gridPositions g).filter
      fun p => (board p).isMine = false) \
      ((gridPositions g).filter fun p => (board p).isRevealed = true) := by
    rw [Finset.mem_sdiff, Finset.mem_filter]
    refine ⟨⟨hc0, hc0m⟩, fun hmem => ?_⟩
    rw [Finset.mem_filter] at hmem
    rw [hmem.2] at hc0r
    exact absurd hc0r (by decide)
  rw [ha, Finset.mem_singleton] at hqmem hc0mem
  exact hqne (hqmem.trans hc0mem.symm)

/-! ### Flood-fill reachability -/

theorem floodReach_cases {g : GridSize} {board : Pos → Cell} {c0 q : Pos}
    (h : FloodReach g board c0 q) : q = c0 ∨ q ∈ gridPositions g := by
  induction h with
  | refl => left; rfl
  | step q' r h hf hm hr hz hnb ih =>
      right
      exact surroundingCells_subset_grid hnb

set_option maxHeartbeats 1600000 in
/-- Every position reachable by the flood-fill relation from the clicked cell
and itself neither flagged nor a mine is revealed by the recursive flood. -/
theorem floodReach_revealed {g : GridSize} {board : Pos → Cell} {c0 : Pos}
    (hwf : wellFormed g board) (hc0 : c0 ∈ gridPositions g)
    (hc0r : (board c0).isRevealed = false)
    (hc0f : (board c0).isFlagged = false)
    (hc0m : (board c0).isMine = false)
    (hc0z : (board c0).adjacentMines = 0) (rc : Int) :
    ∀ q, FloodReach g board c0 q → (board q).isFlagged = false →
      (board q).isMine = false →
      ((recursiveSurroundCells (floodFuel g)
        (setCell board c0 (revealCell (board c0)), rc)
        ((board c0).surroundingCells)).1 q).isRevealed = true := by
  have hb1wf : wellFormed g (setCell board c0 (revealCell (board c0))) :=
    wellFormed_setCell_reveal c0 hwf
  have hnb : (board c0).surroundingCells = surroundingCells g c0.1 c0.2 :=
    hwf c0 hc0
  have hws : ∀ x ∈ (board c0).surroundingCells, x ∈ gridPositions g := by
    rw [hnb]
    intro x hx
    exact surroundingCells_subset_grid hx
  have hfuel : 10 * unrevealedCount g
        (setCell board c0 (revealCell (board c0))) +
      (board c0).surroundingCells.length + 1 ≤ floodFuel g := by
    have h1 := unrevealedCount_le g (setCell board c0 (revealCell (board c0)))
    have h2 : (board c0).surroundingCells.length ≤ 9 := by
      rw [hnb]
      exact surroundingCells_length_le g c0.1 c0.2
    unfold floodFuel
    omega
  intro q hreach
  induction hreach with
  | refl =>
      intro hf hm
      apply recSurround_mono
      exact setCell_reveal_self board c0
  | step q' r hreach' hf' hm' hr' hz' hnb' ihr =>
      intro hrf hrm
      by_cases hq'c0 : q' = c0
      · subst hq'c0
        by_cases hrc0 : r = q'
        · subst hrc0
          apply recSurround_mono
          exact setCell_reveal_self board r
        · apply recSurround_complete_ws g (floodFuel g)
            (setCell board q' (revealCell (board q')), rc)
            ((board q').surroundingCells) hfuel hws r
          · rw [hnb]
            exact hnb'
          · exact ((setCell_reveal_fields board q' r).1).trans hrf
          · exact ((setCell_reveal_fields board q' r).2.1).trans hrm
      · have hq'F := ihr hf' hm'
        apply recSurround_closure g (floodFuel g)
          (setCell board c0 (revealCell (board c0)), rc)
          ((board c0).surroundingCells) hfuel hb1wf hws q' hq'F
        · show ((setCell board c0 (revealCell (board c0))) q').isRevealed =
            false
          rw [setCell_other _ _ _ hq'c0]
          exact hr'
        · exact ((setCell_reveal_fields board c0 q').2.2.1).trans hz'
        · exact hnb'
        · exact ((setCell_reveal_fields board c0 r).1).trans hrf
        · exact ((setCell_reveal_fields board c0 r).2.1).trans hrm

/-! ### Flag counting -/

theorem flaggedCount_flag (g : GridSize) (b : Pos → Cell) (p : Pos)
    (hp : p ∈ gridPositions g) (hf : (b p).isFlagged = false) :
    flaggedCount g (setCell b p (setFlagged (b p) true)) =
      flaggedCount g b + 1 := by
  unfold flaggedCount
  have hins : ((gridPositions g).filter
        fun q => ((setCell b p (setFlagged (b p) true)) q).isFlagged = true) =
      insert p ((gridPositions g).filter fun q => (b q).isFlagged = true) := by
    ext q
    rw [Finset.mem_insert, Finset.mem_filter, Finset.mem_filter]
    by_cases hq : q = p
    · subst hq
      rw [setCell_same]
      simp [hp]
    · rw [setCell_other _ _ _ hq]
      simp [hq]
  rw [hins, Finset.card_insert_of_not_mem]
  rw [Finset.mem_filter]
  intro hmem
  rw [hf] at hmem
  exact absurd hmem.2 (by decide)

theorem flaggedCount_unflag (g : GridSize) (b : Pos → Cell) (p : Pos)
    (hp : p ∈ gridPositions g) (hf : (b p).isFlagged = true) :
    flaggedCount g (setCell b p (setFlagged (b p) false)) + 1 =
      flaggedCount g b := by
  unfold flaggedCount
  have hera : ((gridPositions g).filter
        fun q => ((setCell b p (setFlagged (b p) false)) q).isFlagged = true) =
      ((gridPositions g).filter fun q => (b q).isFlagged = true).erase p := by
    ext q
    rw [Finset.mem_erase, Finset.mem_filter, Finset.mem_filter]
    by_cases hq : q = p
    · subst hq
      rw [setCell_same]
      simp
    · rw [setCell_other _ _ _ hq]
      simp [hq]
  have hpmem : p ∈ (gridPositions g).filter fun q => (b q).isFlagged = true :=
    Finset.mem_filter.mpr ⟨hp, hf⟩
  have hpos : 0 < ((gridPositions g).filter
      fun q => (b q).isFlagged = true).card :=
    Finset.card_pos.mpr ⟨p, hpmem⟩
  rw [hera, Finset.card_erase_of_mem hpmem]
  omega

theorem flaggedCount_congr {g : GridSize} {b b' : Pos → Cell}
    (h : ∀ p ∈ gridPositions g, (b' p).isFlagged = (b p).isFlagged) :
    flaggedCount g b' = flaggedCount g b := by
  unfold flaggedCount
  congr 1
  apply Finset.filter_congr
  intro x hx
  rw [h x hx]

theorem flaggedCount_le (g : GridSize) (b : Pos → Cell) :
    flaggedCount g b ≤ g.row * g.col := by
  unfold flaggedCount
  calc ((gridPositions g).filter fun p => (b p).isFlagged = true).card
      ≤ (gridPositions g).card := Finset.card_filter_le _ _
    _ = g.row * g.col := gridPositions_card g

theorem forceRevealBoard_isRevealed (g : GridSize) (b : Pos → Cell) (p : Pos)
    (hp : p ∈ gridPositions g) :
    (forceRevealBoard g b p).isRevealed = true := by
  unfold forceRevealBoard
  rw [if_pos hp]
  rfl

theorem forceRevealBoard_isFlagged (g : GridSize) (b : Pos → Cell) (p : Pos) :
    (forceRevealBoard g b p).isFlagged = (b p).isFlagged := by
  unfold forceRevealBoard
  split_ifs <;> simp

theorem forceFlagBoard_isRevealed (g : GridSize) (b : Pos → Cell) (p : Pos) :
    (forceFlagBoard g b p).isRevealed = (b p).isRevealed := by
  unfold forceFlagBoard
  split_ifs <;> simp

theorem forceFlagBoard_isFlagged_of (g : GridSize) (b : Pos → Cell) (p : Pos)
    (h1 : p ∈ gridPositions g) (h2 : (b p).isRevealed = false)
    (h3 : (b p).isFlagged = false) :
    (forceFlagBoard g b p).isFlagged = true := by
  unfold forceFlagBoard
  rw [if_pos ⟨h1, h2, h3⟩]
  rfl

theorem forceFlagBoard_rev_or_flag (g : GridSize) (b : Pos → Cell) (p : Pos)
    (hp : p ∈ gridPositions g) :
    (forceFlagBoard g b p).isRevealed = true ∨
    (forceFlagBoard g b p).isFlagged = true := by
  unfold forceFlagBoard
  by_cases hc : p ∈ gridPositions g ∧ (b p).isRevealed = false ∧
      (b p).isFlagged = false
  · rw [if_pos hc]
    right
    rfl
  · rw [if_neg hc]
    by_cases hrv : (b p).isRevealed = false
    · by_cases hfl : (b p).isFlagged = false
      · exact absurd ⟨hp, hrv, hfl⟩ hc
      · right; simpa using hfl
    · left; simpa using hrv

/-- Force-flagging every unrevealed unflagged cell raises the number of
flagged cells by exactly the number of cells it touches. -/
theorem flaggedCount_force (g : GridSize) (b : Pos → Cell) :
    flaggedCount g (forceFlagBoard g b) =
    flaggedCount g b + ((gridPositions g).filter fun p =>
      (b p).isRevealed = false ∧ (b p).isFlagged = false).card := by
  unfold flaggedCount forceFlagBoard
  have hsplit : ((gridPositions g).filter fun q =>
        ((fun p => if p ∈ gridPositions g ∧ (b p).isRevealed = false ∧
            (b p).isFlagged = false then setFlagged (b p) true else b p)
          q).isFlagged = true) =
      ((gridPositions g).filter fun q => (b q).isFlagged = true) ∪
      ((gridPositions g).filter fun q => (b q).isRevealed = false ∧
        (b q).isFlagged = false) := by
    ext q
    simp only [Finset.mem_union, Finset.mem_filter]
    by_cases hc : q ∈ gridPositions g ∧ (b q).isRevealed = false ∧
        (b q).isFlagged = false
    · rw [if_pos hc]
      simp [hc.1, hc.2.1, hc.2.2]
    · rw [if_neg hc]
      constructor
      · intro ⟨hq, hfl⟩
        exact Or.inl ⟨hq, hfl⟩
      · intro h
        rcases h with ⟨hq, hfl⟩ | ⟨hq, hrv, hfl⟩
        · exact ⟨hq, hfl⟩
        · exact absurd ⟨hq, hrv, hfl⟩ hc
  rw [hsplit, Finset.card_union_of_disjoint]
  rw [Finset.disjoint_filter]
  intro x hx hfl hcon
  rw [hcon.2] at hfl
  exact absurd hfl (by decide)

/-! ### Further generation facts -/

theorem initializeBoard_cellwise {g : GridSize} {n : Nat} {picks : List Pos}
    {b : Pos → Cell} (h : initializeBoard g n picks = some b) :
    ∃ bMid, setMines n picks (fun _ => initializeCell) = some bMid ∧
      (∀ p, p ∈ gridPositions g → b p =
        setSurrounding (if (bMid p).isMine = false then
          setAdjacent (bMid p) (adjacentMines g p.1 p.2 bMid) else bMid p)
          (surroundingCells g p.1 p.2)) ∧
      (∀ p, p ∉ gridPositions g → b p = bMid p) := by
  obtain ⟨bMid, hsm, rfl⟩ := initializeBoard_some h
  refine ⟨bMid, hsm, ?_, ?_⟩
  · intro p hp
    show (if p ∈ gridPositions g then
        setSurrounding (if (bMid p).isMine = false then
          setAdjacent (bMid p) (adjacentMines g p.1 p.2 bMid) else bMid p)
          (surroundingCells g p.1 p.2)
      else bMid p) =
      setSurrounding (if (bMid p).isMine = false then
        setAdjacent (bMid p) (adjacentMines g p.1 p.2 bMid) else bMid p)
        (surroundingCells g p.1 p.2)
    rw [if_pos hp]
  · intro p hp
    show (if p ∈ gridPositions g then
        setSurrounding (if (bMid p).isMine = false then
          setAdjacent (bMid p) (adjacentMines g p.1 p.2 bMid) else bMid p)
          (surroundingCells g p.1 p.2)
      else bMid p) = bMid p
    rw [if_neg hp]

theorem mineCount_init (g : GridSize) :
    mineCount g (fun _ => initializeCell) = 0 := by
  unfold mineCount
  rw [Finset.filter_false_of_mem, Finset.card_empty]
  intro p _
  simp [initializeCell]

/-- A generated board keeps the just-placed mines: each cell of the result is
a mine exactly when the corresponding cell after `setMines` is. -/
theorem initializeBoard_isMine {g : GridSize} {n : Nat} {picks : List Pos}
    {b bMid : Pos → Cell}
    (hsm : setMines n picks (fun _ => initializeCell) = some bMid)
    (h : initializeBoard g n picks = some b) :
    ∀ p, (b p).isMine = (bMid p).isMine := by
  obtain ⟨bMid', hsm', hcell, hout⟩ := initializeBoard_cellwise h
  have hmid : bMid' = bMid := by
    rw [hsm] at hsm'
    exact (Option.some.inj hsm').symm
  subst hmid
  intro p
  by_cases hp : p ∈ gridPositions g
  · rw [hcell p hp]
    split_ifs <;> simp
  · rw [hout p hp]

/-- A generated board starts with every in-bounds cell unrevealed and
unflagged. -/
theorem initializeBoard_fresh {g : GridSize} {n : Nat} {picks : List Pos}
    {b : Pos → Cell} (h : initializeBoard g n picks = some b) :
    ∀ p ∈ gridPositions g,
      (b p).isRevealed = false ∧ (b p).isFlagged = false := by
  obtain ⟨bMid, hsm, hcell, hout⟩ := initializeBoard_cellwise h
  intro p hp
  have hstb := setMinesAux_stable picks n _ bMid hsm p
  have hrv : (bMid p).isRevealed = false := hstb.1.trans rfl
  have hfl : (bMid p).isFlagged = false := hstb.2.1.trans rfl
  rw [hcell p hp]
  constructor
  · rw [setSurrounding_isRevealed]
    split_ifs <;> simpa
  · rw [setSurrounding_isFlagged]
    split_ifs <;> simpa

/-- A generated board is well formed: each in-bounds cell stores the
neighbour list computed for it. -/
theorem initializeBoard_wellFormed {g : GridSize} {n : Nat} {picks : List Pos}
    {b : Pos → Cell} (h : initializeBoard g n picks = some b) :
    wellFormed g b := by
  obtain ⟨bMid, hsm, hcell, hout⟩ := initializeBoard_cellwise h
  intro p hp
  rw [hcell p hp, setSurrounding_surroundingCells]

/-! ### Claim theorems -/

/-- C5: for every board and every unrevealed, unflagged mine cell, revealing
that cell sets the lost state (`isGameOver = true`) and afterwards every cell
of the board has `isRevealed = true`. -/
theorem C5_reveal_mine_loses (g : GridSize) (numMines : Nat) (s : GameState)
    (row col : Nat) (hin : (row, col) ∈ gridPositions g)
    (hrev : (s.board (row, col)).isRevealed = false)
    (hflag : (s.board (row, col)).isFlagged = false)
    (hmine : (s.board (row, col)).isMine = true) :
    (revealedCell g numMines s row col).isGameOver = true ∧
    ∀ p ∈ gridPositions g,
      ((revealedCell g numMines s row col).board p).isRevealed = true := by
  simp only [revealedCell]
  rw [if_neg (by rw [hrev, hflag]; simp), if_pos hmine]
  refine ⟨rfl, ?_⟩
  intro p hp
  exact forceRevealBoard_isRevealed g _ p hp

/-- Witness for C5 on the concrete 1×1 board whose cell is a mine. -/
theorem C5_reveal_mine_loses_witness :
    (revealedCell grid11 1 (freshState boardMine11) 0 0).isGameOver = true ∧
    ∀ p ∈ gridPositions grid11,
      ((revealedCell grid11 1 (freshState boardMine11) 0 0).board
        p).isRevealed = true :=
  C5_reveal_mine_loses grid11 1 (freshState boardMine11) 0 0
    (by decide) (by decide) (by decide) (by decide)

/-- C4: the reveal that makes the post-increment `revealedCount` equal
`rows*cols - numMines` (the stored count before the click reads
`rows*cols - numMines - 1`) sets `isGameWon` and force-flags every remaining
unrevealed, unflagged cell, so afterwards every cell is revealed or
flagged. -/
theorem C4_reveal_last_safe_wins (g : GridSize) (numMines : Nat)
    (s : GameState) (row col : Nat) (hin : (row, col) ∈ gridPositions g)
    (hrev : (s.board (row, col)).isRevealed = false)
    (hflag : (s.board (row, col)).isFlagged = false)
    (hmine : (s.board (row, col)).isMine = false)
    (hcount : s.revealedCount =
      ((g.row : Int)) * ((g.col : Int)) - (numMines : Int) - 1) :
    (revealedCell g numMines s row col).isGameWon = true ∧
    (∀ p ∈ gridPositions g,
      ((revealedCell g numMines s row col).board p).isRevealed = true ∨
      ((revealedCell g numMines s row col).board p).isFlagged = true) ∧
    (∀ p ∈ gridPositions g, (s.board p).isRevealed = false →
      (s.board p).isFlagged = false → p ≠ (row, col) →
      ((revealedCell g numMines s row col).board p).isFlagged = true) := by
  simp only [revealedCell]
  rw [if_neg (by rw [hrev, hflag]; simp),
    if_neg (by rw [hmine]; simp), if_pos hcount]
  refine ⟨rfl, ?_, ?_⟩
  · intro p hp
    exact forceFlagBoard_rev_or_flag g _ p hp
  · intro p hp hr hf hne
    apply forceFlagBoard_isFlagged_of g _ p hp
    · rw [setCell_other _ _ _ hne]
      exact hr
    · rw [setCell_other _ _ _ hne]
      exact hf

/-- C9 (amended): once the game is lost the board is fully revealed and every
subsequent reveal or flag toggle is a no-op; once the game is won via the
reveal path every cell is revealed or flagged and every subsequent reveal is
a no-op.  (The handlers never test the terminal flags themselves; see the
counterexample for a flag toggle after a win.) -/
theorem C9_terminal_noop (g : GridSize) (numMines : Nat) (s : GameState)
    (row col : Nat) (hin : (row, col) ∈ gridPositions g) :
    ((∀ p ∈ gridPositions g, (s.board p).isRevealed = true) →
      revealedCell g numMines s row col = s ∧
      flagToggleSet g numMines s row col = s) ∧
    ((∀ p ∈ gridPositions g, (s.board p).isRevealed = true ∨
        (s.board p).isFlagged = true) →
      revealedCell g numMines s row col = s) := by
  constructor
  · intro h
    have hrc := h (row, col) hin
    constructor
    · simp only [revealedCell]
      rw [if_pos (Or.inl hrc)]
    · simp only [flagToggleSet]
      rw [if_neg (by rw [hrc]; simp)]
  · intro h
    rcases h (row, col) hin with hr | hf
    · simp only [revealedCell]
      rw [if_pos (Or.inl hr)]
    · simp only [revealedCell]
      rw [if_pos (Or.inr hf)]

/-- Witness for C9 on the lost 1×1 session (every cell revealed). -/
theorem C9_terminal_noop_witness :
    revealedCell grid11 1 lostState11 0 0 = lostState11 ∧
    flagToggleSet grid11 1 lostState11 0 0 = lostState11 :=
  (C9_terminal_noop grid11 1 lostState11 0 0 (by decide)).1 (by decide)

/-- Counterexample to C9 as stated: in the won 1×2 session the mine at
`(0, 1)` was force-flagged, yet a subsequent flag toggle still unflags it and
changes `flagCount`, so a flag operation after the terminal state does mutate
the board and the counter. -/
theorem C9_flag_after_win_mutates :
    wonState12.isGameWon = true ∧
    (flagToggleSet grid12 1 wonState12 0 1).flagCount ≠
      wonState12.flagCount ∧
    ((flagToggleSet grid12 1 wonState12 0 1).board (0, 1)).isFlagged = false ∧
    (wonState12.board (0, 1)).isFlagged = true := by
  decide

/-- C7: on the default 8×8 grid the neighbour list of the interior cell
`(1, 1)` has nine entries and contains the cell itself (the source loops do
not skip `i = j = 0`); its entries are all in bounds. -/
theorem C7_surrounding_includes_self :
    (surroundingCells GRID_SIZE 1 1).length = 9 ∧
    (1, 1) ∈ surroundingCells GRID_SIZE 1 1 ∧
    ∀ p ∈ surroundingCells GRID_SIZE 1 1, p ∈ gridPositions GRID_SIZE := by
  decide

/-- C8: the mine-placement loop of `setMines` never completes when
`numMines` exceeds `rows*cols`: no finite stream of random draws makes it
return a board, which is the modelled form of the unguarded loop running
forever.  No `InvalidConfiguration` error exists in the code. -/
theorem C8_setMines_never_completes (g : GridSize) (numMines : Nat)
    (picks : List Pos) (hin : ∀ p ∈ picks, p ∈ gridPositions g)
    (hgt : g.row * g.col < numMines) :
    setMines numMines picks (fun _ => initializeCell) = none := by
  cases h : setMines numMines picks (fun _ => initializeCell) with
  | none => rfl
  | some b =>
      exfalso
      have hc := setMinesAux_mineCount g picks numMines
        (fun _ => initializeCell) b hin h
      have h0 := mineCount_init g
      have hle := mineCount_le g b
      omega

/-- Witness for C8: two mines cannot be placed on the 1×1 grid, whatever the
random draws. -/
theorem C8_setMines_never_completes_witness :
    setMines 2 [(0, 0)] (fun _ => initializeCell) = none :=
  C8_setMines_never_completes grid11 2 [(0, 0)] (by decide) (by decide)

/-- Witness for C4 on the concrete 1×2 board with its mine at `(0, 1)`:
revealing `(0, 0)` is the winning reveal and flags the mine. -/
theorem C4_reveal_last_safe_wins_witness :
    (revealedCell grid12 1 (freshState boardMine12) 0 0).isGameWon = true ∧
    (∀ p ∈ gridPositions grid12,
      ((revealedCell grid12 1 (freshState boardMine12) 0 0).board
        p).isRevealed = true ∨
      ((revealedCell grid12 1 (freshState boardMine12) 0 0).board
        p).isFlagged = true) ∧
    (∀ p ∈ gridPositions grid12,
      ((freshState boardMine12).board p).isRevealed = false →
      ((freshState boardMine12).board p).isFlagged = false → p ≠ (0, 0) →
      ((revealedCell grid12 1 (freshState boardMine12) 0 0).board
        p).isFlagged = true) :=
  C4_reveal_last_safe_wins grid12 1 (freshState boardMine12) 0 0
    (by decide) (by decide) (by decide) (by decide) (by decide)

/-- C1: after board generation, every non-mine cell's `adjacentMines` field
equals the number of mine cells among its neighbour coordinates: the up-to-8
in-bounds surrounding positions other than the cell itself. -/
theorem C1_adjacentMines_correct (g : GridSize) (numMines : Nat)
    (picks : List Pos) (b : Pos → Cell)
    (hgen : initializeBoard g numMines picks = some b) :
    ∀ p ∈ gridPositions g, (b p).isMine = false →
      (b p).adjacentMines = ((surroundingCells g p.1 p.2).filter
        fun q => decide (q ≠ p)).countP fun q => (b q).isMine := by
  obtain ⟨bMid, hsm, hcell, hout⟩ := initializeBoard_cellwise hgen
  have hmine_eq : ∀ q, (b q).isMine = (bMid q).isMine :=
    initializeBoard_isMine hsm hgen
  intro p hp hpm
  have hpmMid : (bMid p).isMine = false := (hmine_eq p).symm.trans hpm
  rw [hcell p hp, if_pos hpmMid, setSurrounding_adjacentMines,
    setAdjacent_adjacentMines, adjacentMines_eq_countP]
  have hcg : (surroundingCells g p.1 p.2).countP
      (fun q => (bMid q).isMine) = (surroundingCells g p.1 p.2).countP
      (fun q => (b q).isMine) :=
    List.countP_congr fun a _ => by rw [hmine_eq a]
  rw [hcg]
  exact countP_filter_ne _ _ p hpm

/-- Witness for C1 on the generated 2×2 board with one mine at `(0, 0)`,
checked at the diagonal cell `(1, 1)`. -/
theorem C1_adjacentMines_correct_witness :
    (boardOne22 (1, 1)).isMine = false ∧
    (boardOne22 (1, 1)).adjacentMines = 1 ∧
    (boardOne22 (1, 1)).adjacentMines =
      ((surroundingCells grid22 1 1).filter
        fun q => decide (q ≠ (1, 1))).countP fun q => (boardOne22 q).isMine :=
  ⟨by decide, by decide,
    C1_adjacentMines_correct grid22 1 [(0, 0)] boardOne22 rfl (1, 1)
      (by decide) (by decide)⟩

/-- C6: for every `numMines < rows*cols`, board generation succeeds on any
stream of in-bounds random draws that covers the whole grid, and the
resulting board carries exactly `numMines` mines with every cell unrevealed
and unflagged.  (On a stream that never covers enough distinct cells the
rejection-sampling loop is still running, modelled by `none`; under the
uniform `Math.random` draws of the source a covering stream occurs with
probability 1.) -/
theorem C6_generation (g : GridSize) (numMines : Nat) (picks : List Pos)
    (hlt : numMines < g.row * g.col)
    (hcov : ∀ p ∈ gridPositions g, p ∈ picks)
    (hin : ∀ p ∈ picks, p ∈ gridPositions g) :
    ∃ b, initializeBoard g numMines picks = some b ∧
      mineCount g b = numMines ∧
      ∀ p ∈ gridPositions g,
        (b p).isRevealed = false ∧ (b p).isFlagged = false := by
  have hfilter : ((gridPositions g).filter
      fun p => ((fun _ => initializeCell) p).isMine = false) =
      gridPositions g := by
    apply Finset.filter_true_of_mem
    intro x _
    simp [initializeCell]
  obtain ⟨bMid, hbMid⟩ := setMinesAux_some g picks numMines
    (fun _ => initializeCell) hin
    (by rw [hfilter, gridPositions_card]; omega)
    (fun p hp _ => hcov p hp)
  have hinit : initializeBoard g numMines picks = some fun p =>
      if p ∈ gridPositions g then
        setSurrounding (if (bMid p).isMine = false then
          setAdjacent (bMid p) (adjacentMines g p.1 p.2 bMid) else bMid p)
          (surroundingCells g p.1 p.2)
      else bMid p := by
    unfold initializeBoard
    rw [show setMines numMines picks (fun _ => initializeCell) = some bMid
      from hbMid]
  refine ⟨_, hinit, ?_, initializeBoard_fresh hinit⟩
  have hmc_mid : mineCount g bMid = numMines := by
    have hc := setMinesAux_mineCount g picks numMines
      (fun _ => initializeCell) bMid hin hbMid
    have h0 := mineCount_init g
    omega
  have hmine_eq := initializeBoard_isMine hbMid hinit
  rw [← hmc_mid]
  unfold mineCount
  congr 1
  apply Finset.filter_congr
  intro x _
  rw [hmine_eq x]

/-- Witness for C6: one mine on the 2×2 grid with draws enumerating the whole
grid. -/
theorem C6_generation_witness :
    ∃ b, initializeBoard grid22 1 [(0, 0), (0, 1), (1, 0), (1, 1)] = some b ∧
      mineCount grid22 b = 1 ∧
      ∀ p ∈ gridPositions grid22,
        (b p).isRevealed = false ∧ (b p).isFlagged = false :=
  C6_generation grid22 1 [(0, 0), (0, 1), (1, 0), (1, 1)]
    (by decide) (by decide) (by decide)

/-- C10: `flagCount` equals the number of flagged cells after board
initialization (`handleFaceClick`), and this equality is preserved by every
`revealedCell` and every `flagToggleSet` on an in-bounds cell; in particular
the counter stays within `[0, rows*cols]`. -/
theorem C10_flagCount_invariant (g : GridSize) (numMines : Nat)
    (picks : List Pos) (t s : GameState) (row col : Nat) :
    (handleFaceClick g numMines picks = some t →
      t.flagCount = (flaggedCount g t.board : Int) ∧ t.flagCount = 0) ∧
    ((row, col) ∈ gridPositions g →
      s.flagCount = (flaggedCount g s.board : Int) →
      (revealedCell g numMines s row col).flagCount =
        (flaggedCount g (revealedCell g numMines s row col).board : Int) ∧
      0 ≤ (revealedCell g numMines s row col).flagCount ∧
      (revealedCell g numMines s row col).flagCount ≤
        ((g.row * g.col : Nat) : Int)) ∧
    ((row, col) ∈ gridPositions g →
      s.flagCount = (flaggedCount g s.board : Int) →
      (flagToggleSet g numMines s row col).flagCount =
        (flaggedCount g (flagToggleSet g numMines s row col).board : Int) ∧
      0 ≤ (flagToggleSet g numMines s row col).flagCount ∧
      (flagToggleSet g numMines s row col).flagCount ≤
        ((g.row * g.col : Nat) : Int)) := by
  refine ⟨?_, ?_, ?_⟩
  · -- initialization
    intro h
    unfold handleFaceClick at h
    revert h
    cases hi : initializeBoard g numMines picks with
    | none =>
        intro h
        exact Option.noConfusion h
    | some b =>
        intro h
        have hfl : flaggedCount g b = 0 := by
          unfold flaggedCount
          rw [Finset.filter_false_of_mem, Finset.card_empty]
          intro p hp
          rw [(initializeBoard_fresh hi p hp).2]
          simp
        rw [← Option.some.inj h]
        constructor
        · show (0 : Int) = ((flaggedCount g b : Nat) : Int)
          rw [hfl]
          rfl
        · rfl
  · -- reveal preserves the invariant
    intro hin hsync
    have hleS := flaggedCount_le g s.board
    simp only [revealedCell]
    by_cases hguard : (s.board (row, col)).isRevealed = true ∨
        (s.board (row, col)).isFlagged = true
    · rw [if_pos hguard]
      exact ⟨hsync, by omega, by omega⟩
    · rw [if_neg hguard]
      have hb1 : flaggedCount g (setCell s.board (row, col)
            (revealCell (s.board (row, col)))) = flaggedCount g s.board :=
        flaggedCount_congr
          (fun p _ => (setCell_reveal_fields s.board (row, col) p).1)
      by_cases hm : (s.board (row, col)).isMine = true
      · rw [if_pos hm]
        have hb2 : flaggedCount g (forceRevealBoard g (setCell s.board
              (row, col) (revealCell (s.board (row, col))))) =
            flaggedCount g s.board := by
          rw [← hb1]
          exact flaggedCount_congr
            (fun p _ => forceRevealBoard_isFlagged g _ p)
        refine ⟨?_, ?_, ?_⟩
        · show s.flagCount = ((flaggedCount g (forceRevealBoard g (setCell
            s.board (row, col) (revealCell (s.board (row, col))))) : Nat) : Int)
          rw [hb2]
          exact hsync
        · show (0 : Int) ≤ s.flagCount
          omega
        · show s.flagCount ≤ ((g.row * g.col : Nat) : Int)
          omega
      · rw [if_neg hm]
        by_cases hw : s.revealedCount =
            ((g.row : Int)) * ((g.col : Int)) - (numMines : Int) - 1
        · rw [if_pos hw]
          have hforce := flaggedCount_force g (setCell s.board (row, col)
            (revealCell (s.board (row, col))))
          have hleF := flaggedCount_le g (forceFlagBoard g (setCell s.board
            (row, col) (revealCell (s.board (row, col)))))
          have hmain : s.flagCount + ((((gridPositions g).filter fun p =>
              ((setCell s.board (row, col) (revealCell (s.board (row, col))))
                p).isRevealed = false ∧
              ((setCell s.board (row, col) (revealCell (s.board (row, col))))
                p).isFlagged = false).card : Nat) : Int) =
              ((flaggedCount g (forceFlagBoard g (setCell s.board (row, col)
                (revealCell (s.board (row, col))))) : Nat) : Int) := by
            rw [hforce, hb1, hsync]
            push_cast
            ring
          refine ⟨hmain, ?_, ?_⟩
          · show (0 : Int) ≤ s.flagCount + ((((gridPositions g).filter
              fun p => ((setCell s.board (row, col) (revealCell (s.board
                (row, col)))) p).isRevealed = false ∧
              ((setCell s.board (row, col) (revealCell (s.board (row, col))))
                p).isFlagged = false).card : Nat) : Int)
            omega
          · show s.flagCount + ((((gridPositions g).filter
              fun p => ((setCell s.board (row, col) (revealCell (s.board
                (row, col)))) p).isRevealed = false ∧
              ((setCell s.board (row, col) (revealCell (s.board (row, col))))
                p).isFlagged = false).card : Nat) : Int) ≤
              ((g.row * g.col : Nat) : Int)
            omega
        · rw [if_neg hw]
          by_cases hz : (s.board (row, col)).adjacentMines = 0
          · rw [if_pos hz]
            have hb2 : flaggedCount g (recursiveSurroundCells (floodFuel g)
                  (setCell s.board (row, col)
                    (revealCell (s.board (row, col))),
                   s.revealedCount + 1)
                  ((s.board (row, col)).surroundingCells)).1 =
                flaggedCount g s.board := by
              rw [← hb1]
              exact flaggedCount_congr
                (fun p _ => (recSurround_stable _ _ _ p).1)
            refine ⟨?_, ?_, ?_⟩
            · show s.flagCount = ((flaggedCount g (recursiveSurroundCells
                (floodFuel g) (setCell s.board (row, col)
                  (revealCell (s.board (row, col))), s.revealedCount + 1)
                ((s.board (row, col)).surroundingCells)).1 : Nat) : Int)
              rw [hb2]
              exact hsync
            · show (0 : Int) ≤ s.flagCount
              omega
            · show s.flagCount ≤ ((g.row * g.col : Nat) : Int)
              omega
          · rw [if_neg hz]
            refine ⟨?_, ?_, ?_⟩
            · show s.flagCount = ((flaggedCount g (setCell s.board (row, col)
                (revealCell (s.board (row, col)))) : Nat) : Int)
              rw [hb1]
              exact hsync
            · show (0 : Int) ≤ s.flagCount
              omega
            · show s.flagCount ≤ ((g.row * g.col : Nat) : Int)
              omega
  · -- flag toggle preserves the invariant
    intro hin hsync
    have hleS := flaggedCount_le g s.board
    simp only [flagToggleSet]
    by_cases hrv : (s.board (row, col)).isRevealed = false
    · rw [if_pos hrv]
      by_cases hfl : (s.board (row, col)).isFlagged = true
      · rw [if_pos hfl]
        have hminus := flaggedCount_unflag g s.board (row, col) hin hfl
        have hle := flaggedCount_le g (setCell s.board (row, col)
          (setFlagged (s.board (row, col)) false))
        refine ⟨?_, ?_, ?_⟩
        · show s.flagCount - 1 = ((flaggedCount g (setCell s.board (row, col)
            (setFlagged (s.board (row, col)) false)) : Nat) : Int)
          omega
        · show (0 : Int) ≤ s.flagCount - 1
          omega
        · show s.flagCount - 1 ≤ ((g.row * g.col : Nat) : Int)
          omega
      · rw [if_neg hfl]
        have hplus := flaggedCount_flag g s.board (row, col) hin
          (by simpa using hfl)
        have hle := flaggedCount_le g (setCell s.board (row, col)
          (setFlagged (s.board (row, col)) true))
        refine ⟨?_, ?_, ?_⟩
        · show s.flagCount + 1 = ((flaggedCount g (setCell s.board (row, col)
            (setFlagged (s.board (row, col)) true)) : Nat) : Int)
          omega
        · show (0 : Int) ≤ s.flagCount + 1
          omega
        · show s.flagCount + 1 ≤ ((g.row * g.col : Nat) : Int)
          omega
    · rw [if_neg hrv]
      exact ⟨hsync, by omega, by omega⟩

/-- Witness for C10 on the 1×1 no-mine session. -/
theorem C10_flagCount_invariant_witness :
    ((freshState boardNoMine11).flagCount =
      (flaggedCount grid11 (freshState boardNoMine11).board : Int) ∧
     (freshState boardNoMine11).flagCount = 0) ∧
    ((revealedCell grid11 0 (freshState boardNoMine11) 0 0).flagCount =
      (flaggedCount grid11
        (revealedCell grid11 0 (freshState boardNoMine11) 0 0).board : Int) ∧
     0 ≤ (revealedCell grid11 0 (freshState boardNoMine11) 0 0).flagCount ∧
     (revealedCell grid11 0 (freshState boardNoMine11) 0 0).flagCount ≤
       ((grid11.row * grid11.col : Nat) : Int)) ∧
    ((flagToggleSet grid11 0 (freshState boardNoMine11) 0 0).flagCount =
      (flaggedCount grid11
        (flagToggleSet grid11 0 (freshState boardNoMine11) 0 0).board : Int) ∧
     0 ≤ (flagToggleSet grid11 0 (freshState boardNoMine11) 0 0).flagCount ∧
     (flagToggleSet grid11 0 (freshState boardNoMine11) 0 0).flagCount ≤
       ((grid11.row * grid11.col : Nat) : Int)) := by
  have h := C10_flagCount_invariant grid11 0 [] (freshState boardNoMine11)
    (freshState boardNoMine11) 0 0
  exact ⟨h.1 rfl, h.2.1 (by decide) (by decide), h.2.2 (by decide) (by decide)⟩

/-- C3: evaluating the code on the 1×3 board whose mine sits at `(0, 2)`:
clicking the zero-adjacency cell `(0, 0)` flood-fills the whole safe area, so
after the click the revealed count equals `rows*cols - numMines` (the board
is finished), yet `isGameWon` is still `false` — the flood-fill path never
evaluates the win condition. -/
theorem C3_flood_path_skips_win_check :
    (revealedCell grid13 1 (freshState boardMine13) 0 0).isGameWon = false ∧
    (revealedCell grid13 1 (freshState boardMine13) 0 0).revealedCount =
      ((grid13.row * grid13.col : Nat) : Int) - (1 : Int) ∧
    ∀ p ∈ gridPositions grid13, (boardMine13 p).isMine = false →
      ((revealedCell grid13 1 (freshState boardMine13) 0 0).board
        p).isRevealed = true := by
  decide

/-- Counterexample to C2 as stated: on the no-mine 1×3 board with the middle
cell flagged, `(0, 2)` lies in the connected zero-adjacency region of
`(0, 0)` in the claim's sense (connectivity not blocked by flags) and is
itself unflagged and safe, yet revealing `(0, 0)` does not reveal it — the
source flood fill stops at flagged cells. -/
theorem C2_flag_blocks_flood :
    ClaimZeroReach grid13 flagBlockedState.board (0, 0) (0, 2) ∧
    (flagBlockedState.board (0, 2)).isFlagged = false ∧
    (flagBlockedState.board (0, 2)).isMine = false ∧
    (flagBlockedState.board (0, 0)).isRevealed = false ∧
    (flagBlockedState.board (0, 0)).isFlagged = false ∧
    (flagBlockedState.board (0, 0)).adjacentMines = 0 ∧
    ((revealedCell grid13 0 flagBlockedState 0 0).board (0, 2)).isRevealed =
      false := by
  refine ⟨?_, by decide, by decide, by decide, by decide, by decide,
    by decide⟩
  exact ClaimZeroReach.step (0, 1) (0, 2)
    (ClaimZeroReach.step (0, 0) (0, 1) ClaimZeroReach.refl
      (by decide) (by decide) (by decide))
    (by decide) (by decide) (by decide)

set_option maxHeartbeats 1600000 in
/-- C2 (amended): for a well-formed in-play board, revealing an unrevealed,
unflagged, non-mine cell with zero `adjacentMines` reveals every cell that is
reachable from it through unflagged, non-mine, unrevealed zero-adjacency
cells via the stored 8-neighbourhood — the connected zero region together
with its eligible border — provided the reached cell is itself unflagged and
not a mine; and no mine cell changes its revealed state in the process. -/
theorem C2_flood_reveals_region (g : GridSize) (numMines : Nat)
    (s : GameState) (row col : Nat)
    (hwf : wellFormed g s.board)
    (hin : (row, col) ∈ gridPositions g)
    (hrev : (s.board (row, col)).isRevealed = false)
    (hflag : (s.board (row, col)).isFlagged = false)
    (hmine : (s.board (row, col)).isMine = false)
    (hzero : (s.board (row, col)).adjacentMines = 0)
    (hmc : mineCount g s.board = numMines)
    (hsync : s.revealedCount = (revealedCountOf g s.board : Int))
    (hnorev : ∀ p ∈ gridPositions g, (s.board p).isMine = true →
      (s.board p).isRevealed = false) :
    (∀ q, FloodReach g s.board (row, col) q →
      (s.board q).isFlagged = false → (s.board q).isMine = false →
      ((revealedCell g numMines s row col).board q).isRevealed = true) ∧
    (∀ p ∈ gridPositions g, (s.board p).isMine = true →
      ((revealedCell g numMines s row col).board p).isRevealed =
        (s.board p).isRevealed) := by
  simp only [revealedCell]
  rw [if_neg (by rw [hrev, hflag]; simp), if_neg (by rw [hmine]; simp)]
  by_cases hw : s.revealedCount =
      ((g.row : Int)) * ((g.col : Int)) - (numMines : Int) - 1
  · rw [if_pos hw]
    have hallsafe : ∀ q ∈ gridPositions g, (s.board q).isMine = false →
        q ≠ (row, col) → (s.board q).isRevealed = true := by
      apply all_safe_revealed hmc hnorev hin hmine hrev
      rw [← hsync]
      exact hw
    constructor
    · intro q hq hqf hqm
      by_cases hqc : q = (row, col)
      · subst hqc
        rw [forceFlagBoard_isRevealed]
        exact setCell_reveal_self s.board (row, col)
      · have hqgrid : q ∈ gridPositions g := by
          rcases floodReach_cases hq with h | h
          · exact absurd h hqc
          · exact h
        rw [forceFlagBoard_isRevealed, setCell_other _ _ _ hqc]
        exact hallsafe q hqgrid hqm hqc
    · intro p hp hpm
      have hpne : p ≠ (row, col) := by
        intro hpe
        rw [hpe, hmine] at hpm
        exact absurd hpm (by decide)
      rw [forceFlagBoard_isRevealed, setCell_other _ _ _ hpne]
  · rw [if_neg hw, if_pos hzero]
    constructor
    · intro q hq hqf hqm
      exact floodReach_revealed hwf hin hrev hflag hmine hzero
        (s.revealedCount + 1) q hq hqf hqm
    · intro p hp hpm
      have hpne : p ≠ (row, col) := by
        intro hpe
        rw [hpe, hmine] at hpm
        exact absurd hpm (by decide)
      have hmineSt : ((setCell s.board (row, col)
            (revealCell (s.board (row, col)))) p).isMine = true :=
        ((setCell_reveal_fields s.board (row, col) p).2.1).trans hpm
      show ((recursiveSurroundCells (floodFuel g)
          (setCell s.board (row, col) (revealCell (s.board (row, col))),
            s.revealedCount + 1)
          ((s.board (row, col)).surroundingCells)).1 p).isRevealed =
        (s.board p).isRevealed
      rw [recSurround_mine_untouched (floodFuel g)
        (setCell s.board (row, col) (revealCell (s.board (row, col))),
          s.revealedCount + 1)
        ((s.board (row, col)).surroundingCells) p hmineSt]
      show ((setCell s.board (row, col) (revealCell (s.board (row, col))))
        p).isRevealed = (s.board p).isRevealed
      rw [setCell_other _ _ _ hpne]

/-- Witness for C2 on the 1×1 no-mine session: the clicked cell itself is in
its own region and ends up revealed. -/
theorem C2_flood_reveals_region_witness :
    ((revealedCell grid11 0 (freshState boardNoMine11) 0 0).board
      (0, 0)).isRevealed = true :=
  (C2_flood_reveals_region grid11 0 (freshState boardNoMine11) 0 0
    (by decide) (by decide) (by decide) (by decide) (by decide) (by decide)
    (by decide) (by decide) (by decide)).1 (0, 0) FloodReach.refl
    (by decide) (by decide)

end Minesweeper
